import Mathlib

/-!
# Verification of the hf-raid distributor and throughput harness

Shallow embedding of the two source files of the repository:

* `src/hf_raid/split_files.py` — `split_folder`, the balanced distributor;
* `full_concept.py` — `get_weight_files`, `load_raid_shards` and
  `measure_split_transfer_speed`, the per-volume throughput harness.

Python exceptions are modelled with `Except PyErr`; Python `float` sizes,
durations and rates are modelled with `ℚ` (the claims under study concern the
arithmetic structure of the computations, not binary floating-point rounding).
Filenames are Lean `String`s manipulated through their underlying `List Char`,
mirroring the Python `str` operations character by character.
-/

set_option autoImplicit false

/-- The Python exception classes that the embedded code can raise. -/
inductive PyErr where
  | valueError
  | indexError
  | zeroDivisionError
  | ioError
deriving DecidableEq

instance exceptDecEq {ε α : Type} [DecidableEq ε] [DecidableEq α] :
    DecidableEq (Except ε α) := fun x y =>
  match x, y with
  | .ok a, .ok b =>
    if h : a = b then .isTrue (by rw [h]) else .isFalse (fun he => by cases he; exact h rfl)
  | .error a, .error b =>
    if h : a = b then .isTrue (by rw [h]) else .isFalse (fun he => by cases he; exact h rfl)
  | .ok _, .error _ => .isFalse (fun he => by cases he)
  | .error _, .ok _ => .isFalse (fun he => by cases he)

/-- Sequential effectful map over a list, stopping at the first raised
exception — the result-level semantics shared by a Python `for` loop of calls,
a list comprehension, and `multiprocessing.Pool.map` (which either returns the
list of all task results or re-raises the exception of a failed task,
discarding every other result). -/
def exceptMapM {α β : Type} (f : α → Except PyErr β) : List α → Except PyErr (List β)
  | [] => .ok []
  | x :: xs => do
    let y ← f x
    let ys ← exceptMapM f xs
    pure (y :: ys)

/-- Python division on numbers: raises `ZeroDivisionError` on a zero
denominator (Python raises even for `0.0/0.0`; it never produces NaN from
the `/` operator on a zero denominator). -/
def pyDiv (a b : ℚ) : Except PyErr ℚ :=
  if b = 0 then .error .zeroDivisionError else .ok (a / b)

/-- Python `max` over an iterable of numbers: `ValueError` on an empty
iterable, otherwise the left fold of binary `max` over the items. -/
def pyMax : List ℚ → Except PyErr ℚ
  | [] => .error .valueError
  | x :: xs => .ok (xs.foldl max x)

/-! ## Python string operations (on the underlying character lists) -/

/-- Python `str.split(sep)` for a single-character separator: splits at every
occurrence, keeping empty components (`"a--b".split('-') == ['a','','b']`,
`"".split('-') == ['']`). -/
def splitChar (sep : Char) : List Char → List (List Char)
  | [] => [[]]
  | c :: rest =>
    let r := splitChar sep rest
    if c = sep then [] :: r
    else
      match r with
      | [] => [[c]]
      | h :: t => (c :: h) :: t

/-- Index of the last occurrence of `c` in the list (Python `str.rfind`),
`none` when absent. -/
def rlastIdx (c : Char) : List Char → Option Nat
  | [] => none
  | x :: xs =>
    match rlastIdx c xs with
    | some i => some (i + 1)
    | none => if x = c then some 0 else none

/-- Python `pathlib.PurePath.suffix` on a filename: the substring from the
last `'.'` onward, provided that dot is neither the first nor the last
character; otherwise the empty string. -/
def pySuffixChars (cs : List Char) : List Char :=
  match rlastIdx '.' cs with
  | some i => if 0 < i ∧ i < cs.length - 1 then cs.drop i else []
  | none => []

/-- `pathlib` suffix of a filename, as a `String`. -/
def pySuffix (s : String) : String := ⟨pySuffixChars s.data⟩

/-- Python `str.endswith`. -/
def strEndsWith (s suf : String) : Bool := List.isSuffixOf suf.data s.data

/-- Python `str.startswith`. -/
def strStartsWith (s pre : String) : Bool := List.isPrefixOf pre.data s.data

/-- Body of a Python decimal integer literal accepted by `int(...)` after the
optional sign: a leading digit followed by digits, where a single underscore
may stand between two digits. -/
def pyIntBody : List Char → Bool
  | [] => true
  | '_' :: c :: rest => c.isDigit && pyIntBody rest
  | c :: rest => c.isDigit && pyIntBody rest

/-- Numeric value of the digits of a digit/underscore body (underscores are
grouping only). -/
def digitsVal : List Char → Nat
  | [] => 0
  | c :: rest =>
    if c = '_' then digitsVal rest
    else digitsVal rest + c.toNat.sub 48 * 10 ^ ((rest.filter (fun d => d ≠ '_')).length)

/-- Python `int(s)` for a decimal string: strips surrounding whitespace,
accepts one optional sign, then a non-empty digit body; `none` models a raised
`ValueError`. -/
def pyIntChars (cs : List Char) : Option Int :=
  let trimmed := (((cs.dropWhile (·.isWhitespace)).reverse.dropWhile (·.isWhitespace)).reverse)
  match trimmed with
  | [] => none
  | '+' :: body =>
    if body ≠ [] ∧ body.head? ≠ some '_' ∧ pyIntBody body then some (digitsVal body) else none
  | '-' :: body =>
    if body ≠ [] ∧ body.head? ≠ some '_' ∧ pyIntBody body then some (-(digitsVal body : Int)) else none
  | body =>
    if body.head? ≠ some '_' ∧ pyIntBody body then some (digitsVal body) else none

/-- Python `pathlib.Path(s).name`: the final `'/'`-separated component. -/
def pyName (s : String) : String := ⟨(splitChar '/' s.data).getLastD []⟩

/-- The shard-index extraction `int(name.split('-')[1])` shared by
`get_weight_files` (lines 28–29) and `load_raid_shards` (line 76):
`IndexError` when the split has no second component, `ValueError` when that
component is not a decimal integer string. -/
def extractShardIndexE (name : String) : Except PyErr Int :=
  match (splitChar '-' name.data)[1]? with
  | none => .error .indexError
  | some comp =>
    match pyIntChars comp with
    | none => .error .valueError
    | some n => .ok n

/-- Python string comparison `<`: lexicographic on code points. -/
def pyStrLtB : List Char → List Char → Bool
  | [], [] => false
  | [], _ :: _ => true
  | _ :: _, [] => false
  | a :: as, b :: bs =>
    if a.toNat < b.toNat then true
    else if b.toNat < a.toNat then false
    else pyStrLtB as bs

/-! ## Distributor: `split_folder` from `src/hf_raid/split_files.py` -/

/-- One directory entry of the source folder: its filename and whether it is a
subdirectory. fastcore's `Path.ls` enumerates both kinds; its `file_exts`
filter compares only the pathlib suffix of each entry and never asks whether
the entry is a regular file. -/
structure Entry where
  name : String
  isDir : Bool
deriving DecidableEq

/-- The shard-file suffix convention of `split_folder`. -/
def shardSuffix : String := ".safetensors"

/-- Membership test of the tensor-shard bucket,
`base_location.ls(file_exts=".safetensors")`: the entry's pathlib suffix
equals `.safetensors`. -/
def isShard (e : Entry) : Bool := pySuffix e.name == shardSuffix

/-- The shard bucket `st = base_location.ls(file_exts=".safetensors")`. -/
def shardsOf (entries : List Entry) : List Entry := entries.filter isShard

/-- The non-shard bucket `non_st = all_files.filter(lambda x: x not in st)`. -/
def nonShardsOf (entries : List Entry) : List Entry :=
  entries.filter (fun x => decide (x ∉ shardsOf entries))

/-- Lexical path order used by Python `sorted` on the shard paths (all paths
share the `base_location` directory prefix, so comparison reduces to the
filenames). -/
def entryLe (a b : Entry) : Prop := pyStrLtB b.name.data a.name.data = false

instance : DecidableRel entryLe := fun a b =>
  inferInstanceAs (Decidable (pyStrLtB b.name.data a.name.data = false))

/-- `st = sorted(st)` — a stable sort of the shard bucket by path. -/
def sortedShards (entries : List Entry) : List Entry :=
  (shardsOf entries).insertionSort entryLe

/-- `extra = 1 if i < remainder else 0` (the remainder bias of the
destination loop). -/
def extraOne (rem i : Nat) : Nat := if i < rem then 1 else 0

/-- The destination loop of `split_folder`: `left` destinations remain, the
current destination has index `i`, and `start` is the running slice pointer;
each destination receives `st[start : start + chunk_size + extra]` and the
pointer advances to the slice's end. -/
def assignLoop {α : Type} (st : List α) (chunkSize rem : Nat) :
    Nat → Nat → Nat → List (List α)
  | 0, _, _ => []
  | left + 1, i, start =>
    (st.drop start).take (chunkSize + extraOne rem i) ::
      assignLoop st chunkSize rem left (i + 1) (start + (chunkSize + extraOne rem i))

/-- The contiguous slices of the (sorted) shard list assigned to the `k`
destinations, with `chunk_size = len(st) // k` and `remainder = len(st) % k`. -/
def splitChunks {α : Type} (st : List α) (k : Nat) : List (List α) :=
  assignLoop st (st.length / k) (st.length % k) k 0 0

/-- One recorded rename `x.rename(destinations[destIdx] / newName)`. -/
structure Move where
  entry : Entry
  destIdx : Nat
  newName : String
deriving DecidableEq

/-- The non-shard renames: every non-shard entry goes to `destinations[0]`
under its own filename. -/
def nonShardMoves (entries : List Entry) : List Move :=
  (nonShardsOf entries).map (fun e => ⟨e, 0, e.name⟩)

/-- The shard renames of the destination loop, in execution order:
destination `i` receives the entries of slice `i`, each under its own
filename. -/
def shardMoves (entries : List Entry) (k : Nat) : List Move :=
  ((splitChunks (sortedShards entries) k).enum.map
    (fun p => p.2.map (fun e => (⟨e, p.1, e.name⟩ : Move)))).flatten

/-- `split_folder` as the sequence of renames it performs, in program order:
all non-shard entries to `destinations[0]` first, then the sorted shard
slices to their destinations. -/
def split_folder (entries : List Entry) (k : Nat) : List Move :=
  nonShardMoves entries ++ shardMoves entries k

/-- Number of items the destination loop hands out over `left` iterations
starting at destination index `i`. -/
def sizesFrom (c r : Nat) : Nat → Nat → Nat
  | _, 0 => 0
  | i, left + 1 => (c + extraOne r i) + sizesFrom c r (i + 1) left

/-! ## Throughput harness: `full_concept.py` -/

/-- One value of the named-buffer map returned by deserializing a shard.
The worker's size loop asks `isinstance(v, torch.Tensor)`: a tensor carries
`nelement()` and `element_size()`; any value of another, unexpected type is
the `other` case. -/
inductive Buffer where
  | tensor (nelement : Nat) (elementSize : Nat)
  | other
deriving DecidableEq

/-- The byte count the worker accumulates for one shard (lines 60–64):
`v.nelement() * v.element_size()` for each value that is a `torch.Tensor`;
values of any other type are skipped by the `isinstance` test. -/
def shardSizeBytes : List Buffer → Nat
  | [] => 0
  | .tensor n s :: rest => n * s + shardSizeBytes rest
  | .other :: rest => shardSizeBytes rest

/-- One shard as seen by a worker: its path, the outcome that
`load_file(shard_file)` produces for it (the deserialized buffer list, or a
raised error), and the elapsed wall-clock duration of the load — both are
facts of the external world, so they are inputs of the model. -/
structure ShardInput where
  file : String
  load : Except PyErr (List Buffer)
  time : ℚ
deriving DecidableEq

/-- One element of a worker's `results` list (lines 72–77). -/
structure ShardEntry where
  file : String
  size : ℚ
  time : ℚ
  shard : Int
deriving DecidableEq

/-- The dictionary a worker returns (lines 79–85). -/
structure WorkerResult where
  raid_name : String
  worker_id : Nat
  shards : List ShardEntry
  total_size : ℚ
  total_time : ℚ
deriving DecidableEq

/-- The argument tuple `(shard_files, raid_name, worker_id)` of one worker. -/
structure WorkerArgs where
  shard_files : List ShardInput
  raid_name : String
  worker_id : Nat
deriving DecidableEq

/-- Conversion factor of line 67: sizes are reported in GiB. -/
def bytesPerGb : ℚ := 1024 ^ 3

/-- The body of one iteration of the worker loop (lines 55–77): deserialize
the shard (a raised `IOError` propagates), accumulate the byte size of every
tensor-typed buffer, convert to GiB, and extract the shard number
`int(Path(shard_file).name.split('-')[1])` (a raised `ValueError` or
`IndexError` propagates). -/
def processShard (s : ShardInput) : Except PyErr ShardEntry := do
  let tensors ← s.load
  let sizeGb := (shardSizeBytes tensors : ℚ) / bytesPerGb
  let idx ← extractShardIndexE (pyName s.file)
  pure ⟨s.file, sizeGb, s.time, idx⟩

/-- The worker loop of `load_raid_shards`, carrying the accumulated `results`
list (reversed), `total_size` and `total_time`; the first raised exception
aborts the whole worker, discarding everything accumulated so far. -/
def loadLoop : List ShardInput → List ShardEntry → ℚ → ℚ →
    Except PyErr (List ShardEntry × ℚ × ℚ)
  | [], acc, ts, tt => .ok (acc.reverse, ts, tt)
  | s :: rest, acc, ts, tt => do
    let e ← processShard s
    loadLoop rest (e :: acc) (ts + e.size) (tt + e.time)

/-- `load_raid_shards` (lines 46–85): processes all shards of one volume in
order and returns the worker dictionary; any exception raised on any shard
propagates out of the worker, which then returns nothing. -/
def load_raid_shards (args : WorkerArgs) : Except PyErr WorkerResult := do
  let (entries, ts, tt) ← loadLoop args.shard_files [] 0 0
  pure ⟨args.raid_name, args.worker_id, entries, ts, tt⟩

/-- `Path(dir).glob("*.safetensors")`: the directory entries whose name
matches the pattern — it ends in `.safetensors` and, per `glob` convention,
is not a hidden file. -/
def pyGlobSafetensors (names : List String) : List String :=
  names.filter (fun n => !(strStartsWith n ".") && strEndsWith n ".safetensors")

/-- The path order used by `sorted` over the globbed paths. -/
def pyStrPathLe (a b : String) : Prop := pyStrLtB b.data a.data = false

instance : DecidableRel pyStrPathLe := fun a b =>
  inferInstanceAs (Decidable (pyStrLtB b.data a.data = false))

/-- `sorted([str(p) for p in Path(dir).glob("*.safetensors")])` — the paths
share the directory prefix, so sorting the paths sorts the names. -/
def sortedGlob (dir : List String) : List String :=
  (pyGlobSafetensors dir).insertionSort pyStrPathLe

/-- `get_weight_files` (lines 12–44): glob and sort each directory, raise
`ValueError` unless each side has exactly 8 shards, then compute the shard
numbers of every file (for reporting) — an extraction failure raises out of
the function — and return the two sorted lists. -/
def get_weight_files (dir1 dir2 : List String) :
    Except PyErr (List String × List String) := do
  let files1 := sortedGlob dir1
  let files2 := sortedGlob dir2
  if files1.length ≠ 8 ∨ files2.length ≠ 8 then
    Except.error .valueError
  else do
    let _ ← exceptMapM (fun f => extractShardIndexE (pyName f)) files1
    let _ ← exceptMapM (fun f => extractShardIndexE (pyName f)) files2
    pure (files1, files2)

/-- The per-volume numbers printed inside the results loop (lines 112–123):
the totals, the volume's own average rate `total_size / total_time`, and each
shard's rate `size / time`; a zero denominator raises `ZeroDivisionError`. -/
structure VolumeStats where
  raid_name : String
  total_size : ℚ
  total_time : ℚ
  avg_speed : ℚ
  shard_speeds : List ℚ
deriving DecidableEq

/-- The overall numbers of lines 126–134: per-volume rates (line 131), the
combined size (line 126), the maximum worker duration (line 127) and the
effective rate `total_size / max_time` (line 134). -/
structure OverallStats where
  volume_rates : List ℚ
  combined : ℚ
  max_time : ℚ
  effective : ℚ
deriving DecidableEq

/-- The full report the harness derives from the worker results. -/
structure Report where
  volumes : List VolumeStats
  overall : OverallStats
deriving DecidableEq

/-- The per-volume reporting step for one worker result (lines 112–123). -/
def volumeStats (r : WorkerResult) : Except PyErr VolumeStats := do
  let avg ← pyDiv r.total_size r.total_time
  let speeds ← exceptMapM (fun s => pyDiv s.size s.time) r.shards
  pure ⟨r.raid_name, r.total_size, r.total_time, avg, speeds⟩

/-- The overall statistics step (lines 126–134), with the divisions in
program order. -/
def overallStats (results : List WorkerResult) : Except PyErr OverallStats := do
  let combined := (results.map (fun r => r.total_size)).sum
  let maxT ← pyMax (results.map (fun r => r.total_time))
  let rates ← exceptMapM (fun r => pyDiv r.total_size r.total_time) results
  let eff ← pyDiv combined maxT
  pure ⟨rates, combined, maxT, eff⟩

/-- Result processing of `measure_split_transfer_speed` (lines 112–134):
per-volume statistics for each worker in order, then the overall statistics. -/
def processResults (results : List WorkerResult) : Except PyErr Report := do
  let vols ← exceptMapM volumeStats results
  let ov ← overallStats results
  pure ⟨vols, ov⟩

/-- The external world a harness run observes: what `load_file` returns (or
raises) for a path, and how long the load takes. -/
structure MeasureEnv where
  load : String → Except PyErr (List Buffer)
  time : String → ℚ

/-- The worker argument built from a discovered file path. -/
def mkShardInput (env : MeasureEnv) (f : String) : ShardInput :=
  ⟨f, env.load f, env.time f⟩

/-- The body of `measure_split_transfer_speed`'s `try` block (lines 91–134):
discover the files, run the two workers through `pool.map` — which returns
all worker results or re-raises the exception of a failed worker, discarding
every sibling result — and process the results. -/
def measure_body (env : MeasureEnv) (dir1 dir2 : List String) :
    Except PyErr Report := do
  let (files1, files2) ← get_weight_files dir1 dir2
  let results ← exceptMapM load_raid_shards
    [⟨files1.map (mkShardInput env), "RAID0", 0⟩,
     ⟨files2.map (mkShardInput env), "RAID1", 1⟩]
  processResults results

inductive MeasureOutcome where
  | report (r : Report)
  | errorPrinted (e : PyErr)

/-- `measure_split_transfer_speed` (lines 87–137): the whole body runs inside
`try`, and the `except Exception` clause catches every exception and prints
its message, so the function itself always returns normally — the outer
`Except` layer (what this function raises to its own caller) is always `ok`. -/
def measure_split_transfer_speed (env : MeasureEnv) (dir1 dir2 : List String) :
    Except PyErr MeasureOutcome :=
  match measure_body env dir1 dir2 with
  | .ok r => .ok (.report r)
  | .error e => .ok (.errorPrinted e)

/-! ## Concrete data used by the witnesses and counterexamples -/

/-- Five shard entries, already in lexical order. -/
def exShards5 : List Entry :=
  [⟨"model-00001-of-00005.safetensors", false⟩,
   ⟨"model-00002-of-00005.safetensors", false⟩,
   ⟨"model-00003-of-00005.safetensors", false⟩,
   ⟨"model-00004-of-00005.safetensors", false⟩,
   ⟨"model-00005-of-00005.safetensors", false⟩]

/-- A source directory holding a metadata file, two shard files out of
lexical order, and a subdirectory. -/
def exEntriesMix : List Entry :=
  [⟨"config.json", false⟩,
   ⟨"model-00002-of-00002.safetensors", false⟩,
   ⟨"model-00001-of-00002.safetensors", false⟩,
   ⟨"logs", true⟩]

/-- A worker whose third shard read raises `IOError`; the first two shards
load fine. -/
def exArgsC4 : WorkerArgs :=
  ⟨[⟨"model-00001-of-00003.safetensors", .ok [.tensor 4 2], 1⟩,
    ⟨"model-00002-of-00003.safetensors", .ok [.tensor 4 2], 1⟩,
    ⟨"model-00003-of-00003.safetensors", .error .ioError, 1⟩], "RAID0", 0⟩

/-- A sibling worker whose single shard loads fine. -/
def exArgsC4Sibling : WorkerArgs :=
  ⟨[⟨"model-00001-of-00001.safetensors", .ok [.tensor 4 2], 1⟩], "RAID1", 1⟩

/-- A worker whose single shard deserializes to a well-typed tensor plus one
buffer of an unexpected type. -/
def exArgsC7 : WorkerArgs :=
  ⟨[⟨"model-00001-of-00001.safetensors", .ok [.tensor 4 2, .other], 1⟩], "RAID0", 0⟩

/-- A zero-shard worker argument and the result the worker returns for it. -/
def exEmptyArgs : WorkerArgs := ⟨[], "RAID0", 0⟩

/-- The worker result of a zero-shard volume: no entries, zero totals. -/
def exEmptyResult : WorkerResult := ⟨"RAID0", 0, [], 0, 0⟩

/-- An environment whose loads all succeed with no buffers, instantly. -/
def exEnvTrivial : MeasureEnv := ⟨fun _ => .ok [], fun _ => 0⟩

/-- A directory of eight shard files whose names carry no dash, so shard
index extraction raises. -/
def exBadDir : List String :=
  ["model.safetensors", "model.safetensors", "model.safetensors",
   "model.safetensors", "model.safetensors", "model.safetensors",
   "model.safetensors", "model.safetensors"]

/-- Two worker results: 2 GB over 1 s and 6 GB over 2 s. -/
def exResultsC3 : List WorkerResult :=
  [⟨"RAID0", 0, [⟨"model-00001-of-00002.safetensors", 2, 1, 1⟩], 2, 1⟩,
   ⟨"RAID1", 1, [⟨"model-00002-of-00002.safetensors", 6, 2, 2⟩], 6, 2⟩]

/-! ## General lemmas -/
theorem assignLoop_length {α : Type} (st : List α) (c r : Nat) :
    ∀ (left i start : Nat), (assignLoop st c r left i start).length = left
  | 0, _, _ => rfl
  | left + 1, i, start => by
    simp [assignLoop, assignLoop_length st c r left]

theorem assignLoop_flatten {α : Type} (st : List α) (c r : Nat) :
    ∀ (left i start : Nat),
      (assignLoop st c r left i start).flatten =
        (st.drop start).take (sizesFrom c r i left) := by
  intro left
  induction left with
  | zero => intro i start; simp [assignLoop, sizesFrom]
  | succ left ih =>
    intro i start
    simp only [assignLoop, List.flatten_cons, ih]
    rw [← List.drop_drop, ← List.take_add]
    rfl

theorem sizesFrom_add_min (c r : Nat) :
    ∀ (left i : Nat), sizesFrom c r i left + min r i = left * c + min r (i + left) := by
  intro left
  induction left with
  | zero => intro i; simp [sizesFrom]
  | succ left ih =>
    intro i
    have h := ih (i + 1)
    have hm : (left + 1) * c = left * c + c := by ring
    simp only [sizesFrom]
    by_cases hir : i < r <;> simp only [extraOne, hir, if_true, if_false] <;> omega

theorem assignLoop_getD {α : Type} (st : List α) (c r : Nat) :
    ∀ (left i start j : Nat), j < left →
      (assignLoop st c r left i start).getD j [] =
        (st.drop (start + sizesFrom c r i j)).take (c + extraOne r (i + j)) := by
  intro left
  induction left with
  | zero => intro i start j hj; omega
  | succ left ih =>
    intro i start j hj
    match j with
    | 0 => simp [assignLoop, sizesFrom]
    | j + 1 =>
      have hij : i + (j + 1) = (i + 1) + j := by omega
      simp only [assignLoop, List.getD_cons_succ, sizesFrom, hij]
      rw [ih (i + 1) (start + (c + extraOne r i)) j (by omega)]
      congr 2
      omega

theorem splitChunks_length {α : Type} (st : List α) (k : Nat) :
    (splitChunks st k).length = k :=
  assignLoop_length st _ _ k 0 0

theorem splitChunks_flatten {α : Type} (st : List α) (k : Nat) (hk : 1 ≤ k) :
    (splitChunks st k).flatten = st := by
  unfold splitChunks
  rw [assignLoop_flatten]
  have hr : st.length % k < k := Nat.mod_lt _ hk
  have hs := sizesFrom_add_min (st.length / k) (st.length % k) k 0
  have hdm := Nat.div_add_mod st.length k
  have h0 : sizesFrom (st.length / k) (st.length % k) 0 k = st.length := by omega
  rw [h0, List.drop_zero, List.take_length]

theorem splitChunks_getD_eq_slice {α : Type} (st : List α) (k j : Nat)
    (hj : j < k) :
    (splitChunks st k).getD j [] =
      (st.drop (j * (st.length / k) + min (st.length % k) j)).take
        (st.length / k + extraOne (st.length % k) j) := by
  unfold splitChunks
  rw [assignLoop_getD st _ _ k 0 0 j hj]
  have hs := sizesFrom_add_min (st.length / k) (st.length % k) j 0
  have h0 : sizesFrom (st.length / k) (st.length % k) 0 j =
      j * (st.length / k) + min (st.length % k) j := by omega
  simp [h0]

theorem splitChunks_getD_length {α : Type} (st : List α) (k j : Nat)
    (hk : 1 ≤ k) (hj : j < k) :
    ((splitChunks st k).getD j []).length =
      st.length / k + extraOne (st.length % k) j := by
  rw [splitChunks_getD_eq_slice st k j hj]
  have hr : st.length % k < k := Nat.mod_lt _ hk
  have hdm := Nat.div_add_mod st.length k
  have hjs : (j + 1) * (st.length / k) ≤ k * (st.length / k) :=
    Nat.mul_le_mul_right _ (by omega)
  have hm : (j + 1) * (st.length / k) = j * (st.length / k) + st.length / k := by ring
  simp only [List.length_take, List.length_drop]
  by_cases hjr : j < st.length % k <;>
    simp only [extraOne, hjr, if_true, if_false] <;> omega

example : splitChunks [10, 20, 30, 40, 50, 60, 70, 80, 90] 2 =
    [[10, 20, 30, 40, 50], [60, 70, 80, 90]] := by decide

@[simp] theorem exBind_ok {ε α β : Type} (a : α) (f : α → Except ε β) :
    (Except.ok a >>= f : Except ε β) = f a := rfl

@[simp] theorem exBind_error {ε α β : Type} (e : ε) (f : α → Except ε β) :
    (Except.error e >>= f : Except ε β) = .error e := rfl

@[simp] theorem exPure_eq_ok {ε α : Type} (a : α) :
    (pure a : Except ε α) = .ok a := rfl

theorem exceptMapM_map_ok {α β : Type} (f : α → Except PyErr β) (g : α → β) :
    ∀ (l : List α), (∀ x ∈ l, f x = .ok (g x)) → exceptMapM f l = .ok (l.map g) := by
  intro l
  induction l with
  | nil => intro h; rfl
  | cons x xs ih =>
    intro h
    have hx := h x (List.mem_cons_self x xs)
    have hxs := ih (fun y hy => h y (List.mem_cons_of_mem x hy))
    simp [exceptMapM, hx, hxs]

theorem exceptMapM_not_ok {α β : Type} (f : α → Except PyErr β) :
    ∀ (l : List α), (∃ x ∈ l, (f x).isOk = false) →
      (exceptMapM f l).isOk = false := by
  intro l
  induction l with
  | nil => rintro ⟨x, hx, -⟩; cases hx
  | cons x xs ih =>
    rintro ⟨y, hy, hyf⟩
    cases hfx : f x with
    | error e => simp [exceptMapM, hfx, Except.isOk, Except.toBool]
    | ok v =>
      rcases List.mem_cons.mp hy with h | h
      · subst h; rw [hfx] at hyf; simp [Except.isOk, Except.toBool] at hyf
      · have hxs := ih ⟨y, h, hyf⟩
        cases hm : exceptMapM f xs with
        | error e => simp [exceptMapM, hfx, hm, Except.isOk, Except.toBool]
        | ok ys => rw [hm] at hxs; simp [Except.isOk, Except.toBool] at hxs

theorem loadLoop_ok_sums :
    ∀ (l : List ShardInput) (acc : List ShardEntry) (ts tt : ℚ)
      (es : List ShardEntry) (S T : ℚ),
      loadLoop l acc ts tt = .ok (es, S, T) →
      S + (acc.map (fun e => e.size)).sum = ts + (es.map (fun e => e.size)).sum ∧
      T + (acc.map (fun e => e.time)).sum = tt + (es.map (fun e => e.time)).sum := by
  intro l
  induction l with
  | nil =>
    intro acc ts tt es S T h
    simp only [loadLoop, Except.ok.injEq, Prod.mk.injEq] at h
    obtain ⟨h1, h2, h3⟩ := h
    subst h1; subst h2; subst h3
    simp [List.sum_reverse]
  | cons s rest ih =>
    intro acc ts tt es S T h
    cases hp : processShard s with
    | error e => simp [loadLoop, hp] at h
    | ok entry =>
      simp only [loadLoop, hp, exBind_ok] at h
      have hsum := ih (entry :: acc) (ts + entry.size) (tt + entry.time) es S T h
      simp only [List.map_cons, List.sum_cons] at hsum
      constructor <;> linarith [hsum.1, hsum.2]

theorem load_raid_shards_totals (args : WorkerArgs) (r : WorkerResult)
    (h : load_raid_shards args = .ok r) :
    r.total_size = (r.shards.map (fun e => e.size)).sum ∧
    r.total_time = (r.shards.map (fun e => e.time)).sum := by
  unfold load_raid_shards at h
  cases hl : loadLoop args.shard_files [] 0 0 with
  | error e => rw [hl] at h; simp at h
  | ok trip =>
    obtain ⟨es, S, T⟩ := trip
    rw [hl] at h
    simp only [exBind_ok, exPure_eq_ok, Except.ok.injEq] at h
    have hsum := loadLoop_ok_sums args.shard_files [] 0 0 es S T hl
    simp only [List.map_nil, List.sum_nil, add_zero, zero_add] at hsum
    subst h
    exact hsum

theorem loadLoop_append_error :
    ∀ (pre : List ShardInput) (s : ShardInput) (post : List ShardInput)
      (e : PyErr) (acc : List ShardEntry) (ts tt : ℚ),
      (∀ x ∈ pre, (processShard x).isOk = true) → processShard s = .error e →
      loadLoop (pre ++ s :: post) acc ts tt = .error e := by
  intro pre
  induction pre with
  | nil => intro s post e acc ts tt _ hs; simp [loadLoop, hs]
  | cons x xs ih =>
    intro s post e acc ts tt h hs
    have hx := h x (List.mem_cons_self x xs)
    cases hpx : processShard x with
    | error e2 => rw [hpx] at hx; simp [Except.isOk, Except.toBool] at hx
    | ok entry =>
      simp only [List.cons_append, loadLoop, hpx, exBind_ok]
      exact ih s post e _ _ _ (fun y hy => h y (List.mem_cons_of_mem x hy)) hs

theorem load_raid_shards_append_error (pre post : List ShardInput)
    (s : ShardInput) (e : PyErr) (nm : String) (wid : Nat)
    (hpre : ∀ x ∈ pre, (processShard x).isOk = true)
    (hs : processShard s = .error e) :
    load_raid_shards ⟨pre ++ s :: post, nm, wid⟩ = .error e := by
  unfold load_raid_shards
  rw [loadLoop_append_error pre s post e [] 0 0 hpre hs]
  rfl

theorem le_foldl_max (x : ℚ) : ∀ (l : List ℚ), x ≤ l.foldl max x := by
  intro l
  induction l generalizing x with
  | nil => exact le_refl x
  | cons y ys ih => exact le_trans (le_max_left x y) (ih (max x y))

theorem mem_le_foldl_max (y : ℚ) : ∀ (l : List ℚ) (x : ℚ), y ∈ l → y ≤ l.foldl max x := by
  intro l
  induction l with
  | nil => intro x hy; cases hy
  | cons z zs ih =>
    intro x hy
    rcases List.mem_cons.mp hy with h | h
    · subst h; exact le_trans (le_max_right x y) (le_foldl_max (max x y) zs)
    · exact ih (max x z) h

theorem foldl_max_mem : ∀ (l : List ℚ) (x : ℚ), l.foldl max x = x ∨ l.foldl max x ∈ l := by
  intro l
  induction l with
  | nil => intro x; exact Or.inl rfl
  | cons y ys ih =>
    intro x
    rcases ih (max x y) with h | h
    · rcases max_choice x y with hc | hc
      · exact Or.inl (by rw [List.foldl_cons, h, hc])
      · exact Or.inr (by rw [List.foldl_cons, h, hc]; exact List.mem_cons_self y ys)
    · exact Or.inr (List.mem_cons_of_mem y h)

theorem pyMax_spec (l : List ℚ) (m : ℚ) (h : pyMax l = .ok m) :
    (∀ y ∈ l, y ≤ m) ∧ m ∈ l := by
  cases l with
  | nil => simp [pyMax] at h
  | cons x xs =>
    simp only [pyMax, Except.ok.injEq] at h
    subst h
    refine ⟨?_, ?_⟩
    · intro y hy
      rcases List.mem_cons.mp hy with hh | hh
      · subst hh; exact le_foldl_max y xs
      · exact mem_le_foldl_max y xs x hh
    · rcases foldl_max_mem xs x with hh | hh
      · rw [hh]; exact List.mem_cons_self x xs
      · exact List.mem_cons_of_mem x hh

/-- What the caller of `measure_split_transfer_speed` observes: either the
report was produced and printed, or some exception was caught by the
`except` clause of lines 136–137 and its message printed. -/
example : extractShardIndexE "model-00001-of-00016.safetensors" = .ok 1 := by decide
example : extractShardIndexE "model.safetensors" = .error .indexError := by decide
example : extractShardIndexE "model-of-16.safetensors" = .error .valueError := by decide
example : pySuffix "model-00001-of-00016.safetensors" = ".safetensors" := by decide
example : pySuffix "config" = "" := by decide
example : pySuffix ".bashrc" = "" := by decide

/-! ## Claim C1 — balanced assignment sizes -/

/-- C1: with `n` sorted shard files and `k ≥ 1` destinations, `split_folder`
gives destination `j` (0-indexed) the contiguous slice of the sorted list
starting at `j * base + min(remainder, j)`, of length `base + 1` when
`j < remainder` and `base` otherwise, where `base = n / k` and
`remainder = n % k`; consequently any two destinations' assignment sizes
differ by at most 1, and when `n < k` every destination with index at least
`n` receives zero shards, without error. -/
theorem split_balance_spec (st : List Entry) (k : Nat) (hk : 1 ≤ k) :
    (∀ j, j < k →
      (splitChunks st k).getD j [] =
        (st.drop (j * (st.length / k) + min (st.length % k) j)).take
          (st.length / k + extraOne (st.length % k) j)) ∧
    (∀ j, j < k →
      ((splitChunks st k).getD j []).length =
        st.length / k + extraOne (st.length % k) j) ∧
    (∀ i j, i < k → j < k →
      ((splitChunks st k).getD i []).length ≤
        ((splitChunks st k).getD j []).length + 1) ∧
    (st.length < k → ∀ j, st.length ≤ j → j < k →
      ((splitChunks st k).getD j []).length = 0) := by
  refine ⟨fun j hj => splitChunks_getD_eq_slice st k j hj,
          fun j hj => splitChunks_getD_length st k j hk hj, ?_, ?_⟩
  · intro i j hi hj
    rw [splitChunks_getD_length st k i hk hi, splitChunks_getD_length st k j hk hj]
    unfold extraOne
    split_ifs <;> omega
  · intro hlt j hnj hj
    rw [splitChunks_getD_length st k j hk hj]
    have h1 : st.length / k = 0 := Nat.div_eq_of_lt hlt
    have h2 : st.length % k = st.length := Nat.mod_eq_of_lt hlt
    rw [h1, h2]
    unfold extraOne
    rw [if_neg (by omega)]

theorem split_balance_spec_witness :
    ((splitChunks exShards5 2).getD 0 []).length = 3 ∧
    ((splitChunks exShards5 2).getD 1 []).length = 2 := by
  have h := split_balance_spec exShards5 2 (by decide)
  exact ⟨(h.2.1 0 (by decide)).trans (by decide),
         (h.2.1 1 (by decide)).trans (by decide)⟩

/-! ## Claim C2 — split completeness and order preservation -/

/-- C2: the concatenation of the destination assignments, in destination
order, is exactly the sorted shard list; a file is assigned somewhere iff it
is a shard file of the source; and (for a duplicate-free source listing)
every shard file appears in exactly one assignment and the assignments are
pairwise disjoint. -/
theorem split_completeness_spec (entries : List Entry) (k : Nat) (hk : 1 ≤ k) :
    ((splitChunks (sortedShards entries) k).flatten = sortedShards entries) ∧
    (∀ x, x ∈ (splitChunks (sortedShards entries) k).flatten ↔ x ∈ shardsOf entries) ∧
    (entries.Nodup →
      (∀ x ∈ shardsOf entries,
        ((splitChunks (sortedShards entries) k).flatten).count x = 1) ∧
      List.Pairwise List.Disjoint (splitChunks (sortedShards entries) k)) := by
  have hperm : (sortedShards entries).Perm (shardsOf entries) :=
    List.perm_insertionSort _ _
  have hflat := splitChunks_flatten (sortedShards entries) k hk
  refine ⟨hflat, ?_, ?_⟩
  · intro x; rw [hflat]; exact hperm.mem_iff
  · intro hnd
    have hnds : (shardsOf entries).Nodup := hnd.filter _
    have hndsorted : (sortedShards entries).Nodup := hperm.nodup_iff.mpr hnds
    constructor
    · intro x hx
      rw [hflat, hperm.count_eq]
      exact List.count_eq_one_of_mem hnds hx
    · have hj : (splitChunks (sortedShards entries) k).flatten.Nodup := by
        rw [hflat]; exact hndsorted
      exact (List.nodup_flatten.mp hj).2

theorem split_completeness_spec_witness :
    (splitChunks (sortedShards exEntriesMix) 2).flatten = sortedShards exEntriesMix ∧
    ((splitChunks (sortedShards exEntriesMix) 2).flatten).count
      (⟨"model-00001-of-00002.safetensors", false⟩ : Entry) = 1 := by
  have h := split_completeness_spec exEntriesMix 2 (by decide)
  exact ⟨h.1, (h.2.2 (by decide)).1 _ (by decide)⟩

/-! ## Claim C8 — non-shard routing -/

theorem mem_nonShardMoves_of (entries : List Entry) (e : Entry)
    (he : e ∈ entries) (hsh : isShard e = false) :
    (⟨e, 0, e.name⟩ : Move) ∈ nonShardMoves entries := by
  refine List.mem_map.mpr ⟨e, ?_, rfl⟩
  refine List.mem_filter.mpr ⟨he, decide_eq_true ?_⟩
  intro hmem
  have h2 := (List.mem_filter.mp hmem).2
  rw [hsh] at h2
  cases h2

/-- C8: for any `k ≥ 1` destinations, the move sequence of `split_folder` is
exactly the non-shard moves followed by the shard moves — so every non-shard
entry is moved before any shard file — and every non-shard entry of the
source is moved to `destinations[0]` under its own filename, while the shard
moves touch only shard entries. -/
theorem split_nonshard_routing_spec (entries : List Entry) (k : Nat) (hk : 1 ≤ k) :
    (split_folder entries k = nonShardMoves entries ++ shardMoves entries k) ∧
    (∀ e ∈ entries, isShard e = false →
      (⟨e, 0, e.name⟩ : Move) ∈ nonShardMoves entries) ∧
    (∀ m ∈ nonShardMoves entries,
      m.destIdx = 0 ∧ m.newName = m.entry.name ∧ isShard m.entry = false) ∧
    (∀ m ∈ shardMoves entries k, isShard m.entry = true) := by
  refine ⟨rfl, fun e he hsh => mem_nonShardMoves_of entries e he hsh, ?_, ?_⟩
  · intro m hm
    obtain ⟨e, he, rfl⟩ := List.mem_map.mp hm
    have hin : e ∈ entries := (List.mem_filter.mp he).1
    have hnotin : e ∉ shardsOf entries := of_decide_eq_true (List.mem_filter.mp he).2
    refine ⟨rfl, rfl, ?_⟩
    cases h : isShard e with
    | false => rfl
    | true => exact absurd (List.mem_filter.mpr ⟨hin, h⟩) hnotin
  · intro m hm
    obtain ⟨l, hl, hml⟩ := List.mem_flatten.mp hm
    obtain ⟨p, hp, rfl⟩ := List.mem_map.mp hl
    obtain ⟨i, c⟩ := p
    obtain ⟨e, hep, rfl⟩ := List.mem_map.mp hml
    have hc : c ∈ splitChunks (sortedShards entries) k :=
      List.getElem?_mem (List.mk_mem_enum_iff_getElem?.mp hp)
    have hflatmem : e ∈ (splitChunks (sortedShards entries) k).flatten :=
      List.mem_flatten.mpr ⟨c, hc, hep⟩
    rw [splitChunks_flatten _ _ hk] at hflatmem
    have hsh : e ∈ shardsOf entries := (List.mem_insertionSort entryLe).mp hflatmem
    exact (List.mem_filter.mp hsh).2

theorem split_nonshard_routing_spec_witness :
    (⟨⟨"config.json", false⟩, 0, "config.json"⟩ : Move) ∈ nonShardMoves exEntriesMix := by
  have h := split_nonshard_routing_spec exEntriesMix 2 (by decide)
  exact h.2.1 ⟨"config.json", false⟩ (by decide) (by decide)

/-! ## Claim C10 — classification by extension alone -/

/-- C10: membership in the shard bucket is decided by the `.safetensors`
suffix of the entry's name alone — the directory flag never enters the
classification — and every entry whose suffix is not `.safetensors`,
subdirectories included, is renamed into `destinations[0]` by `split_folder`
under its own name. -/
theorem split_extension_only_spec (entries : List Entry) (k : Nat) (e : Entry)
    (_hk : 1 ≤ k) (he : e ∈ entries) :
    (e ∈ shardsOf entries ↔ pySuffix e.name = shardSuffix) ∧
    (∀ nm d₁ d₂, isShard ⟨nm, d₁⟩ = isShard ⟨nm, d₂⟩) ∧
    (pySuffix e.name ≠ shardSuffix →
      (⟨e, 0, e.name⟩ : Move) ∈ split_folder entries k) := by
  refine ⟨?_, fun nm d₁ d₂ => rfl, ?_⟩
  · constructor
    · intro hmem
      have h2 := (List.mem_filter.mp hmem).2
      exact eq_of_beq h2
    · intro hsuf
      exact List.mem_filter.mpr ⟨he, beq_iff_eq.mpr hsuf⟩
  · intro hsuf
    have hsh : isShard e = false := by
      cases h : isShard e with
      | false => rfl
      | true => exact absurd (eq_of_beq h) hsuf
    exact List.mem_append_left _ (mem_nonShardMoves_of entries e he hsh)

theorem split_extension_only_spec_witness :
    (⟨⟨"logs", true⟩, 0, "logs"⟩ : Move) ∈ split_folder exEntriesMix 2 := by
  have h := split_extension_only_spec exEntriesMix 2 ⟨"logs", true⟩ (by decide) (by decide)
  exact h.2.2 (by decide)

/-! ## Claim C3 — aggregate arithmetic -/

/-- C3: for every list of worker results (non-empty, with the denominators
the code divides by nonzero so that no `ZeroDivisionError` fires), result
processing succeeds and computes: the combined size as the sum of all
workers' total sizes; the wall-clock duration as the maximum of all workers'
total durations; the effective rate as the combined size divided by that
maximum; and each volume's own rate as that volume's `total_size` divided by
its own `total_time`, independent of sibling volumes. Moreover every worker
result `load_raid_shards` returns carries a total size and total duration
that are the sums over its per-shard entries. -/
theorem aggregate_arithmetic_spec (results : List WorkerResult)
    (hne : results ≠ [])
    (hvt : ∀ r ∈ results, r.total_time ≠ 0)
    (hst : ∀ r ∈ results, ∀ s ∈ r.shards, s.time ≠ 0) :
    (∃ rep, processResults results = .ok rep ∧
      rep.overall.combined = (results.map (fun r => r.total_size)).sum ∧
      ((∀ r ∈ results, r.total_time ≤ rep.overall.max_time) ∧
        ∃ r ∈ results, rep.overall.max_time = r.total_time) ∧
      rep.overall.effective = rep.overall.combined / rep.overall.max_time ∧
      rep.overall.volume_rates =
        results.map (fun r => r.total_size / r.total_time) ∧
      rep.volumes.map (fun v => v.avg_speed) =
        results.map (fun r => r.total_size / r.total_time)) ∧
    (∀ (args : WorkerArgs) (r : WorkerResult), load_raid_shards args = .ok r →
      r.total_size = (r.shards.map (fun e => e.size)).sum ∧
      r.total_time = (r.shards.map (fun e => e.time)).sum) := by
  constructor
  · have hvol : ∀ r ∈ results, volumeStats r =
        .ok ⟨r.raid_name, r.total_size, r.total_time, r.total_size / r.total_time,
             r.shards.map (fun s => s.size / s.time)⟩ := by
      intro r hr
      have hspd := exceptMapM_map_ok (fun s => pyDiv s.size s.time)
        (fun s => s.size / s.time) r.shards
        (fun s hs => by simp [pyDiv, hst r hr s hs])
      have havg : pyDiv r.total_size r.total_time =
          Except.ok (r.total_size / r.total_time) := by simp [pyDiv, hvt r hr]
      simp only [volumeStats, havg, exBind_ok, hspd, exPure_eq_ok]
    have hvols := exceptMapM_map_ok volumeStats
      (fun r => ⟨r.raid_name, r.total_size, r.total_time, r.total_size / r.total_time,
                 r.shards.map (fun s => s.size / s.time)⟩) results hvol
    have hrates := exceptMapM_map_ok (fun r => pyDiv r.total_size r.total_time)
      (fun r => r.total_size / r.total_time) results
      (fun r hr => by simp [pyDiv, hvt r hr])
    cases results with
    | nil => exact absurd rfl hne
    | cons r0 rest =>
      have hmax : pyMax ((r0 :: rest).map (fun r => r.total_time)) =
          .ok ((rest.map (fun r => r.total_time)).foldl max r0.total_time) := by
        simp [pyMax]
      set m := (rest.map (fun r => r.total_time)).foldl max r0.total_time with hm
      obtain ⟨hub, hmem⟩ := pyMax_spec _ m hmax
      obtain ⟨rm, hrm, hrmt⟩ := List.mem_map.mp hmem
      have hm0 : m ≠ 0 := by rw [← hrmt]; exact hvt rm hrm
      refine ⟨⟨(r0 :: rest).map (fun r => ⟨r.raid_name, r.total_size, r.total_time,
                r.total_size / r.total_time, r.shards.map (fun s => s.size / s.time)⟩),
              ⟨(r0 :: rest).map (fun r => r.total_size / r.total_time),
               ((r0 :: rest).map (fun r => r.total_size)).sum, m,
               ((r0 :: rest).map (fun r => r.total_size)).sum / m⟩⟩,
             ?_, rfl, ?_, rfl, rfl, ?_⟩
      · have heff : pyDiv (((r0 :: rest).map (fun r => r.total_size)).sum) m =
            Except.ok ((((r0 :: rest).map (fun r => r.total_size)).sum) / m) := by
          simp [pyDiv, hm0]
        simp only [processResults, overallStats, hvols, exBind_ok, hmax, hrates,
          heff, exPure_eq_ok]
      · constructor
        · intro r hr; exact hub r.total_time (List.mem_map.mpr ⟨r, hr, rfl⟩)
        · exact ⟨rm, hrm, hrmt.symm⟩
      · simp [List.map_map, Function.comp]
  · exact fun args r h => load_raid_shards_totals args r h

theorem aggregate_arithmetic_spec_witness :
    ∃ rep, processResults exResultsC3 = .ok rep ∧ rep.overall.combined = 8 := by
  obtain ⟨⟨rep, hproc, hcomb, -, -, -, -⟩, -⟩ :=
    aggregate_arithmetic_spec exResultsC3 (by decide) (by decide) (by decide)
  exact ⟨rep, hproc, by rw [hcomb]; norm_num [exResultsC3]⟩

/-! ## Claim C4 — worker failure behaviour -/

theorem loadLoop_not_ok :
    ∀ (l : List ShardInput) (acc : List ShardEntry) (ts tt : ℚ),
      (∃ s ∈ l, (processShard s).isOk = false) →
      (loadLoop l acc ts tt).isOk = false := by
  intro l
  induction l with
  | nil => rintro acc ts tt ⟨s, hs, -⟩; cases hs
  | cons x xs ih =>
    rintro acc ts tt ⟨s, hs, hsf⟩
    cases hpx : processShard x with
    | error e => simp [loadLoop, hpx, Except.isOk, Except.toBool]
    | ok entry =>
      rcases List.mem_cons.mp hs with h | h
      · subst h; rw [hpx] at hsf; simp [Except.isOk, Except.toBool] at hsf
      · simp only [loadLoop, hpx, exBind_ok]
        exact ih _ _ _ ⟨s, h, hsf⟩

/-- C4 (amended): when a worker's `j`-th shard read raises `IOError` (after
`j - 1` successfully processed shards), `load_raid_shards` re-raises: it
returns no `WorkerResult` at all, so the partial totals of the completed
shards are discarded; `pool.map` then re-raises the same error in the
harness, discarding every sibling worker's result as well, so no aggregate
report is produced and no volume is marked incomplete. -/
theorem worker_failure_propagates_spec (pre post : List ShardInput)
    (s : ShardInput) (e : PyErr) (nm : String) (wid : Nat)
    (hpre : ∀ x ∈ pre, (processShard x).isOk = true)
    (hs : processShard s = .error e) :
    load_raid_shards ⟨pre ++ s :: post, nm, wid⟩ = .error e ∧
    (∀ (rest : List WorkerArgs),
      exceptMapM load_raid_shards (⟨pre ++ s :: post, nm, wid⟩ :: rest) = .error e) := by
  have h1 := load_raid_shards_append_error pre post s e nm wid hpre hs
  exact ⟨h1, fun rest => by simp [exceptMapM, h1]⟩

theorem worker_failure_propagates_spec_witness :
    load_raid_shards exArgsC4 = .error PyErr.ioError ∧
    exceptMapM load_raid_shards [exArgsC4] = .error PyErr.ioError := by
  have h := worker_failure_propagates_spec
    [⟨"model-00001-of-00003.safetensors", .ok [.tensor 4 2], 1⟩,
     ⟨"model-00002-of-00003.safetensors", .ok [.tensor 4 2], 1⟩] []
    ⟨"model-00003-of-00003.safetensors", .error .ioError, 1⟩
    .ioError "RAID0" 0 (by decide) (by rfl)
  exact ⟨h.1, h.2 []⟩

/-- C4 counterexample: volume A's third shard read raises `IOError`, and the
failing worker reports nothing at all — `load_raid_shards` produces an error,
not a `WorkerResult` with two completed shards — and `pool.map` over both
volumes likewise yields only the error, with the sibling's result discarded
rather than any report marking volume A incomplete. -/
theorem worker_failure_discards_results_cex :
    load_raid_shards exArgsC4 = .error PyErr.ioError ∧
    (load_raid_shards exArgsC4).isOk = false ∧
    exceptMapM load_raid_shards [exArgsC4, exArgsC4Sibling] = .error PyErr.ioError :=
  ⟨rfl, rfl, rfl⟩

/-! ## Claim C5 — error propagation to the caller -/

/-- C5 (amended): every error raised inside the harness body — precondition
failure, read failure, processing failure — propagates to the entry point
`measure_split_transfer_speed`, whose `except` clause catches it and surfaces
its message instead of re-raising: the entry point always returns normally,
so no error reaches its own caller. (`split_folder` itself has no handler, so
distributor errors do propagate uncaught.) -/
theorem errors_caught_at_entry_spec (env : MeasureEnv) (dir1 dir2 : List String) :
    (∀ e, measure_body env dir1 dir2 = .error e →
      measure_split_transfer_speed env dir1 dir2 = .ok (.errorPrinted e)) ∧
    (∀ r, measure_body env dir1 dir2 = .ok r →
      measure_split_transfer_speed env dir1 dir2 = .ok (.report r)) ∧
    (measure_split_transfer_speed env dir1 dir2).isOk = true := by
  refine ⟨fun e he => ?_, fun r hr => ?_, ?_⟩
  · simp [measure_split_transfer_speed, he]
  · simp [measure_split_transfer_speed, hr]
  · unfold measure_split_transfer_speed
    cases measure_body env dir1 dir2 <;> rfl

theorem errors_caught_at_entry_spec_witness :
    measure_split_transfer_speed exEnvTrivial ["a"] ["b"] =
      .ok (.errorPrinted PyErr.valueError) := by
  have h := errors_caught_at_entry_spec exEnvTrivial ["a"] ["b"]
  exact h.1 PyErr.valueError (by rfl)

/-- C5 counterexample: with empty directories, the precondition check inside
the body raises `ValueError`, yet `measure_split_transfer_speed` returns
normally — the error is caught and printed at the entry point instead of
propagating to the entry point's caller. -/
theorem errors_not_propagated_cex :
    measure_body exEnvTrivial [] [] = .error PyErr.valueError ∧
    measure_split_transfer_speed exEnvTrivial [] [] =
      .ok (.errorPrinted PyErr.valueError) ∧
    (measure_split_transfer_speed exEnvTrivial [] []).isOk = true :=
  ⟨rfl, rfl, rfl⟩

/-! ## Claim C6 — zero-shard volume -/

/-- C6 (amended): a zero-shard volume yields a `WorkerResult` with no entries
and zero total size and duration; computing that volume's rate then raises
`ZeroDivisionError` — Python `0/0` raises, it does not produce NaN — so result
processing aborts and no report is produced (the entry point catches the
exception and prints it). Independently, the 8-shard precondition of
`get_weight_files` already rejects an empty volume with `ValueError` before
any worker runs. -/
theorem zero_shard_volume_spec (nm : String) (wid : Nat) :
    load_raid_shards ⟨[], nm, wid⟩ = .ok ⟨nm, wid, [], 0, 0⟩ ∧
    (∀ (rest : List WorkerResult),
      processResults (⟨nm, wid, [], 0, 0⟩ :: rest) = .error PyErr.zeroDivisionError) ∧
    get_weight_files [] [] = .error PyErr.valueError := by
  refine ⟨rfl, fun rest => ?_, rfl⟩
  simp [processResults, exceptMapM, volumeStats, pyDiv]

/-- C6 counterexample: for a volume with an empty shard set the harness does
not report a NaN rate and does not complete the run with a report — result
processing raises `ZeroDivisionError` on that volume's `0/0`. -/
theorem zero_shard_volume_cex :
    load_raid_shards exEmptyArgs = .ok exEmptyResult ∧
    processResults [exEmptyResult] = .error PyErr.zeroDivisionError :=
  ⟨rfl, rfl⟩

/-! ## Claim C7 — malformed buffer type -/

/-- C7 (amended): a buffer of an unexpected (non-tensor) type in a shard's
named-buffer map is silently skipped by the worker's `isinstance` test: it
contributes zero bytes to the shard's size, raises nothing, and the shard —
and hence the worker — succeeds exactly as if the buffer were absent. -/
theorem malformed_buffer_skipped_spec (xs ys : List Buffer) :
    shardSizeBytes (xs ++ Buffer.other :: ys) = shardSizeBytes (xs ++ ys) ∧
    shardSizeBytes [Buffer.other] = 0 ∧
    (∀ (f : String) (t : ℚ),
      processShard ⟨f, .ok (xs ++ Buffer.other :: ys), t⟩ =
        processShard ⟨f, .ok (xs ++ ys), t⟩) := by
  have hsz : ∀ (zs : List Buffer),
      shardSizeBytes (zs ++ Buffer.other :: ys) = shardSizeBytes (zs ++ ys) := by
    intro zs
    induction zs with
    | nil => rfl
    | cons b bs ih => cases b <;> simp [shardSizeBytes, ih]
  refine ⟨hsz xs, rfl, fun f t => ?_⟩
  simp [processShard, hsz xs]

/-- C7 counterexample: a shard whose buffer map holds a malformed value does
not make the worker fail with an `IOError`-class error — the worker succeeds,
and the malformed buffer is counted as zero bytes (the shard's size equals
the size without it). -/
theorem malformed_buffer_not_fatal_cex :
    (load_raid_shards exArgsC7).isOk = true ∧
    shardSizeBytes [Buffer.tensor 4 2, Buffer.other] = shardSizeBytes [Buffer.tensor 4 2] ∧
    processShard ⟨"model-00001-of-00001.safetensors", .ok [.tensor 4 2, .other], 1⟩ =
      processShard ⟨"model-00001-of-00001.safetensors", .ok [.tensor 4 2], 1⟩ :=
  ⟨rfl, rfl, rfl⟩

/-! ## Claim C9 — shard index extraction is assumed, not validated -/

/-- C9: the shard index of a file is extracted as `int(name.split('-')[1])`;
for a name with no dash the index access raises `IndexError`, and for a name
whose second dash-separated component is not a decimal integer string the
conversion raises `ValueError`; such a failure makes the enclosing operation
— a worker's shard loop, and hence `load_raid_shards`, or the shard-number
pass of `get_weight_files` — raise instead of returning a result. -/
theorem shard_index_extraction_spec :
    (∀ (name : String), (splitChar '-' name.data)[1]? = none →
      extractShardIndexE name = .error PyErr.indexError) ∧
    (∀ (name : String) (comp : List Char),
      (splitChar '-' name.data)[1]? = some comp → pyIntChars comp = none →
      extractShardIndexE name = .error PyErr.valueError) ∧
    (∀ (s : ShardInput) (bufs : List Buffer), s.load = .ok bufs →
      (extractShardIndexE (pyName s.file)).isOk = false →
      (processShard s).isOk = false) ∧
    (∀ (args : WorkerArgs) (s : ShardInput), s ∈ args.shard_files →
      (processShard s).isOk = false → (load_raid_shards args).isOk = false) ∧
    (∀ (dir1 dir2 : List String),
      (∃ f ∈ sortedGlob dir1, (extractShardIndexE (pyName f)).isOk = false) →
      (sortedGlob dir1).length = 8 → (sortedGlob dir2).length = 8 →
      (get_weight_files dir1 dir2).isOk = false) := by
  refine ⟨?_, ?_, ?_, ?_, ?_⟩
  · intro name h
    simp [extractShardIndexE, h]
  · intro name comp h1 h2
    simp [extractShardIndexE, h1, h2]
  · intro s bufs hload hex
    cases hE : extractShardIndexE (pyName s.file) with
    | error e => simp [processShard, hload, hE, Except.isOk, Except.toBool]
    | ok v => rw [hE] at hex; simp [Except.isOk, Except.toBool] at hex
  · intro args s hmem hfail
    unfold load_raid_shards
    cases hl : loadLoop args.shard_files [] 0 0 with
    | error e => simp [hl, Except.isOk, Except.toBool]
    | ok trip =>
      have := loadLoop_not_ok args.shard_files [] 0 0 ⟨s, hmem, hfail⟩
      rw [hl] at this
      simp [Except.isOk, Except.toBool] at this
  · intro dir1 dir2 hex h1 h2
    unfold get_weight_files
    rw [if_neg (by simp [h1, h2])]
    have hfail := exceptMapM_not_ok (fun f => extractShardIndexE (pyName f))
      (sortedGlob dir1) hex
    cases hm : exceptMapM (fun f => extractShardIndexE (pyName f)) (sortedGlob dir1) with
    | error e => simp [hm, Except.isOk, Except.toBool]
    | ok vals => rw [hm] at hfail; simp [Except.isOk, Except.toBool] at hfail

theorem shard_index_extraction_spec_witness :
    extractShardIndexE "model.safetensors" = .error PyErr.indexError ∧
    extractShardIndexE "model-of-16.safetensors" = .error PyErr.valueError ∧
    (get_weight_files exBadDir exBadDir).isOk = false := by
  have h := shard_index_extraction_spec
  refine ⟨h.1 "model.safetensors" (by rfl),
          h.2.1 "model-of-16.safetensors" "of".data (by rfl) (by rfl),
          h.2.2.2.2 exBadDir exBadDir ?_ (by rfl) (by rfl)⟩
  exact ⟨"model.safetensors", by decide, by rfl⟩
